import Mathlib

/-!
Verification of the `csv` structured-data reader.

The development shallowly embeds the Go sources of the repository:

* `Tag` / `ParseTag` embed `tag.go` (struct-tag parsing);
* `Kind`, `StructField`, `GoType`, `validateFields` embed the reflective
  type validation of the reader;
* `headerToIndex` / `parseHeader` embed the header-binding loops;
* `assignFields` embeds the row-assignment loop (with `none` modelling the
  reflection panic of `SetString` on a non-string field);
* `Source`, `Reader`, `Reader.Read` embed the read orchestration over an
  underlying `csv.Reader`, modelled as a list of pending rows followed by
  the error the source reports once exhausted.

Go maps are modelled as functions to `Option Nat` built by the same
insertion order as the source's loops, so later insertions overwrite
earlier ones exactly as in Go. Go strings are modelled as Lean `String`,
and `strings.Split(s, ",")` is modelled character-by-character by
`splitCommaList` (the separator is the single ASCII comma).
-/

namespace Csv

/-- A parsed `csv` struct field tag, from `tag.go`: the only component is
the CSV header value the field binds to (empty means no binding). -/
structure Tag where
  FieldHeader : String
  deriving DecidableEq, Repr

/-- Character-level model of Go's `strings.Split(s, ",")`: splits a
character list around every comma, always returning at least one part. -/
def splitCommaList : List Char → List (List Char)
  | [] => [[]]
  | c :: cs =>
    if c = ',' then [] :: splitCommaList cs
    else
      match splitCommaList cs with
      | [] => [[c]]
      | p :: ps => (c :: p) :: ps

/-- Model of Go's `strings.ContainsRune(s, ',')` used by `ParseTag`. -/
def containsComma (s : String) : Bool := s.toList.contains ','

/-- `ParseTag` from `tag.go`: if the raw tag has no comma, append one;
split the result on commas; when there is more than one part and the first
part is not the dash sentinel `-`, the first part is the field header,
otherwise the tag is empty. -/
def ParseTag (tag : String) : Tag :=
  let fullTag := if ! containsComma tag then tag ++ "," else tag
  let parts := (splitCommaList fullTag.toList).map List.asString
  if parts.length > 1 ∧ parts.headI ≠ "-" then { FieldHeader := parts.headI }
  else { FieldHeader := "" }

/-- `reflect.Kind`, restricted to the kinds the reader distinguishes. -/
inductive Kind where
  | pointer
  | struct
  | string
  | int
  | bool
  | float
  deriving DecidableEq, Repr

/-- One struct field as reflection presents it to the reader: its name,
its raw `csv` tag value, and the kind of its type. -/
structure StructField where
  name : String
  tag : String
  kind : Kind
  deriving DecidableEq, Repr

/-- The shape of a Go type as `validateFields` inspects it: a pointer to
some type, a struct with a field list, or a bare scalar kind. -/
inductive GoType where
  | pointer (elem : GoType)
  | structT (fields : List StructField)
  | string
  | int
  | bool
  | float
  deriving DecidableEq, Repr

/-- `reflect.Type.Kind()` of a modelled type. -/
def kindOf : GoType → Kind
  | .pointer _ => .pointer
  | .structT _ => .struct
  | .string => .string
  | .int => .int
  | .bool => .bool
  | .float => .float

/-- The three construction-time errors of the reader. -/
inductive ValidationError where
  | notPointer
  | notStructPointer
  | fieldNotAssignable (fieldName : String)
  deriving DecidableEq, Repr

/-- The field loop of `validateFields`: visiting fields in declaration
order, a field whose parsed tag binds a column (`FieldHeader ≠ ""`) but
whose kind is not string fails with `fieldNotAssignable` naming it. -/
def validateFieldsLoop : List StructField → Except ValidationError Unit
  | [] => .ok ()
  | f :: fs =>
    if (ParseTag f.tag).FieldHeader ≠ "" ∧ f.kind ≠ Kind.string then
      .error (.fieldNotAssignable f.name)
    else validateFieldsLoop fs

/-- `validateFields`: the type must be a pointer (`notPointer` otherwise),
its pointee must be a struct (`notStructPointer` otherwise), and then the
field loop runs. -/
def validateFields : GoType → Except ValidationError Unit
  | .pointer (.structT fields) => validateFieldsLoop fields
  | .pointer _ => .error .notStructPointer
  | _ => .error .notPointer

/-- First loop of `parseHeader`: the Go map `headerToIndex` built by
`headerToIndex[field] = i` over the header row, a later occurrence of the
same text overwriting an earlier one. -/
def headerToIndex (header : List String) : String → Option Nat :=
  header.enum.foldl (fun m p => fun s => if s = p.2 then some p.1 else m s)
    (fun _ => none)

/-- Second loop of `parseHeader`: for each struct field in declaration
order, if its parsed tag's `FieldHeader` is a key of `headerToIndex`,
record `fieldIndex[headerToIndex[tag.FieldHeader]] = i`; otherwise skip
the field. -/
def parseHeader (header : List String) (fields : List StructField) :
    Nat → Option Nat :=
  let h2i := headerToIndex header
  fields.enum.foldl
    (fun m p =>
      match h2i (ParseTag p.2.tag).FieldHeader with
      | none => m
      | some colIdx => fun j => if j = colIdx then some p.1 else m j)
    (fun _ => none)

/-- `parseHeader` including the nil-map detail: the Go map `r.fieldIndex`
is only allocated inside the field loop, so after parsing a header it is
still nil (`none`) exactly when the struct has no fields. -/
def parseHeaderMap (header : List String) (fields : List StructField) :
    Option (Nat → Option Nat) :=
  if fields.isEmpty then none else some (parseHeader header fields)

/-- `assignFields`: for each record position `i` in order, when the
column-to-field map binds `i` to a struct field index, write the record
text into that field with `SetString`. The `none` result models the
reflection panic that `SetString` raises on a non-string field (or
`FieldByIndex` on an out-of-range index); Go's loop aborts there. -/
def assignFields (fieldIndex : Nat → Option Nat) (fields : List StructField)
    (record : List String) (vals : List String) : Option (List String) :=
  record.enum.foldl
    (fun acc p =>
      match acc with
      | none => none
      | some vs =>
        match fieldIndex p.1 with
        | none => some vs
        | some sfIndex =>
          match fields[sfIndex]? with
          | none => none
          | some f =>
            if f.kind = Kind.string then some (vs.set sfIndex p.2) else none)
    (some vals)

/-- End-of-data (`io.EOF`) or any other error the underlying `csv.Reader`
reports; errors other than end-of-data are opaque to the reader. -/
inductive ReadError where
  | eof
  | sourceError (msg : String)
  deriving DecidableEq, Repr

/-- The underlying `csv.Reader`, modelled as the list of rows it will
still deliver followed by the error it reports once those run out
(`io.EOF` for a well-formed file, a malformed-row error otherwise). -/
structure Source where
  rows : List (List String)
  finalError : ReadError
  deriving DecidableEq, Repr

/-- One `Read` call on the underlying `csv.Reader`: the next pending row,
or the source's terminal error once the rows are exhausted. -/
def Source.read : Source → Except ReadError (List String) × Source
  | ⟨[], e⟩ => (.error e, ⟨[], e⟩)
  | ⟨r :: rs, e⟩ => (.ok r, ⟨rs, e⟩)

/-- `Reader` state: the underlying source, the column-to-field map (`none`
models the nil Go map before the header is parsed), the `parsedHeader`
flag, and the static field descriptors of the record type `T`. -/
structure Reader where
  src : Source
  fieldIndex : Option (Nat → Option Nat)
  parsedHeader : Bool
  fields : List StructField

/-- Reading from a nil Go map yields the zero value, so an absent map
behaves exactly like an empty one. -/
def mapOrEmpty : Option (Nat → Option Nat) → Nat → Option Nat
  | none => fun _ => none
  | some m => m

/-- Result of one `Reader.Read` call: a populated record, a propagated
source error, or the reflection panic modelled by `assignFields`
returning `none`. -/
inductive ReadResult where
  | ok (vals : List String)
  | err (e : ReadError)
  | fault
  deriving DecidableEq, Repr

/-- The data-row half of `Reader.Read`: pull one row from the source,
propagate its error unchanged, otherwise assign the row's fields into the
record values. -/
def Reader.readData (r : Reader) (vals : List String) : ReadResult × Reader :=
  match Source.read r.src with
  | (.error e, srcNext) => (.err e, { r with src := srcNext })
  | (.ok rcd, srcNext) =>
    match assignFields (mapOrEmpty r.fieldIndex) r.fields rcd vals with
    | none => (.fault, { r with src := srcNext })
    | some valsNext => (.ok valsNext, { r with src := srcNext })

/-- `Reader.Read`: on the first call pull one row and bind it as the
header (propagating a source error unchanged, with the header still
unbound); then — on every call — pull one data row and assign it. -/
def Reader.Read (r : Reader) (vals : List String) : ReadResult × Reader :=
  if r.parsedHeader then r.readData vals
  else
    match Source.read r.src with
    | (.error e, srcNext) => (.err e, { r with src := srcNext })
    | (.ok rcd, srcNext) =>
      Reader.readData
        { r with src := srcNext, fieldIndex := parseHeaderMap rcd r.fields,
                 parsedHeader := true }
        vals

/-- The field descriptors of the test type `exampleType`: `Bar`, `Baz`,
`Foo`, declared in that order, each a string bound to its lower-case
column name. -/
def exampleFields : List StructField :=
  [⟨"Bar", "bar", Kind.string⟩, ⟨"Baz", "baz", Kind.string⟩,
    ⟨"Foo", "foo", Kind.string⟩]

/-- The column-to-field map `{0 ↦ 2, 1 ↦ 0, 2 ↦ 1}` of the test
scenario. -/
def exampleMap : Nat → Option Nat := fun j =>
  if j = 0 then some 2 else if j = 1 then some 0 else
  if j = 2 then some 1 else none

/-- A struct with a single untagged field of int kind: `struct { A int }`.
Its parsed column name is empty, so validation accepts a pointer to it. -/
def intFieldOnly : List StructField := [⟨"A", "", Kind.int⟩]

/-! ### Helper lemmas about `splitCommaList` and string conversions -/

theorem splitCommaList_ne_nil (l : List Char) : splitCommaList l ≠ [] := by
  cases l with
  | nil => simp [splitCommaList]
  | cons c cs =>
    simp only [splitCommaList]
    split
    · simp
    · split <;> simp

theorem splitCommaList_append_comma (l r : List Char) (h : ',' ∉ l) :
    splitCommaList (l ++ ',' :: r) = l :: splitCommaList r := by
  induction l with
  | nil => simp [splitCommaList]
  | cons c cs ih =>
    have hc : ¬ c = ',' := fun hc => h (hc ▸ List.mem_cons_self c cs)
    have hcs : ',' ∉ cs := fun hm => h (List.mem_cons_of_mem c hm)
    simp only [List.cons_append, splitCommaList, if_neg hc, List.append_eq, ih hcs]

theorem toList_append (s t : String) :
    (s ++ t).toList = s.toList ++ t.toList := by
  simp [String.toList, String.data_append]

/-! ### Behaviour of `ParseTag` -/

theorem ParseTag_no_comma (s : String) (hc : containsComma s = false)
    (hd : s ≠ "-") : ParseTag s = ⟨s⟩ := by
  have hmem : ',' ∉ s.toList := by simpa [containsComma] using hc
  have hsplit : splitCommaList (s.toList ++ [',']) = [s.toList, []] := by
    simpa [splitCommaList] using splitCommaList_append_comma s.toList [] hmem
  have htl : (s ++ ",").toList = s.toList ++ [','] := by
    rw [toList_append]; rfl
  simp only [ParseTag, hc, Bool.not_false, if_true, htl, hsplit, List.map_cons,
    String.asString_toList, List.map_nil, List.length_cons, List.length_nil,
    List.headI]
  rw [if_pos ⟨by omega, hd⟩]

theorem ParseTag_with_comma (name quals : String)
    (hm : containsComma name = false) :
    ParseTag (name ++ "," ++ quals) = ⟨if name = "-" then "" else name⟩ := by
  have hmem : ',' ∉ name.toList := by simpa [containsComma] using hm
  have htl : (name ++ "," ++ quals).toList
      = name.toList ++ ',' :: quals.toList := by
    rw [toList_append, toList_append]
    show (name.toList ++ [',']) ++ quals.toList = _
    simp
  have hc : containsComma (name ++ "," ++ quals) = true := by
    simp [containsComma, htl]
  have hne : (splitCommaList quals.toList).map List.asString ≠ [] := by
    simpa using splitCommaList_ne_nil quals.toList
  simp only [ParseTag, hc, Bool.not_true, Bool.false_eq_true, if_false, htl,
    splitCommaList_append_comma name.toList quals.toList hmem, List.map_cons,
    String.asString_toList, List.length_cons, List.headI]
  by_cases hd : name = "-"
  · rw [if_neg]
    · simp [hd]
    · simp [hd]
  · rw [if_pos ⟨by have := List.length_pos.mpr hne; omega, hd⟩]
    simp [hd]

/-- C5: the annotation parser's sentinel edge cases. Parsing `""`, `"-"`,
`","` and `"-,"` yields in each case a `Tag` whose `FieldHeader` is `""`.
In the code the "empty/unbound" annotation and the annotation "bound to
the empty-string column name" are the same value `⟨""⟩` (there is no
separate ignored flag), so all four claimed equations hold: `""` and `"-"`
give the empty annotation, and `","` and `"-,"` give the annotation whose
column name is the empty string. -/
theorem parseTag_sentinel_edge_cases :
    ParseTag "" = ⟨""⟩ ∧ ParseTag "-" = ⟨""⟩ ∧
    ParseTag "," = ⟨""⟩ ∧ ParseTag "-," = ⟨""⟩ := by
  refine ⟨by decide, by decide, by decide, by decide⟩

/-- C6 counterexample: for the input `"-,omitempty,extra"` — which is of
the form "name followed by comma-separated qualifiers" with head `"-"` —
the parsed column name is `""`, not the text `"-"` standing before the
first separator. So the claim that the column name always equals the text
before the first separator is false as stated. -/
theorem parseTag_dash_head_counterexample :
    ParseTag "-,omitempty,extra" = ⟨""⟩ ∧ (⟨""⟩ : Tag) ≠ ⟨"-"⟩ := by
  refine ⟨by decide, by decide⟩

/-- C6 amended: for every text `s` with no comma and different from `"-"`,
`ParseTag s = ⟨s⟩`; and for every input of the form `name ++ "," ++ quals`
(with `name` comma-free) the trailing qualifiers never affect the column
name, which equals the text before the first separator **except** when
that text is the dash sentinel `"-"`, in which case the column name is
empty. -/
theorem parseTag_head_determines_column :
    (∀ s : String, containsComma s = false → s ≠ "-" → ParseTag s = ⟨s⟩) ∧
    (∀ name quals : String, containsComma name = false →
      ParseTag (name ++ "," ++ quals) = ⟨if name = "-" then "" else name⟩) :=
  ⟨ParseTag_no_comma, ParseTag_with_comma⟩

/-- Witness for C6's amended theorem at the inputs `"name"` and
`"name,omitempty,extra"`. -/
theorem parseTag_head_determines_column_witness :
    ParseTag "name" = ⟨"name"⟩ ∧ ParseTag "name,omitempty,extra" = ⟨"name"⟩ := by
  constructor
  · exact parseTag_head_determines_column.1 "name" (by decide) (by decide)
  · have h := parseTag_head_determines_column.2 "name" "omitempty,extra" (by decide)
    have e : ("name" ++ "," ++ "omitempty,extra" : String) = "name,omitempty,extra" := by
      decide
    rw [e] at h
    simpa using h

/-- C10: parsing each of `""`, `"-"`, `","` and `"-,"` yields one and the
same value, the `Tag` whose `FieldHeader` is the empty string. The `Tag`
type carries only the column-name component (every `Tag` is determined by
its `FieldHeader`), so an "unbound" field and a field "bound to the
empty-string column name" are represented identically, and header binding
(`headerToIndex` lookup) treats them identically. -/
theorem tag_unbound_and_empty_column_identified :
    ParseTag "" = ParseTag "-" ∧ ParseTag "-" = ParseTag "," ∧
    ParseTag "," = ParseTag "-," ∧ ParseTag "" = ⟨""⟩ ∧
    (∀ t : Tag, t = ⟨t.FieldHeader⟩) ∧
    (∀ header : List String,
      headerToIndex header (ParseTag "-").FieldHeader
        = headerToIndex header (ParseTag ",").FieldHeader) := by
  refine ⟨by decide, by decide, by decide, by decide, fun t => ?_, fun header => ?_⟩
  · cases t; rfl
  · have h : ParseTag "-" = ParseTag "," := by decide
    rw [h]

/-! ### Helper lemmas about the header-binding folds

Both loops of `parseHeader` insert into a Go map; inserting at a key
overwrites an earlier entry, so a map built by a left-to-right loop sends
each key to the payload of the **last** insertion that claimed it. The two
lemmas below state this once for each loop, as a `find?` over the reversed
insertion sequence. -/

theorem headerToIndex_foldl (ps : List (Nat × String)) (m : String → Option Nat)
    (s : String) :
    ps.foldl (fun m p => fun t => if t = p.2 then some p.1 else m t) m s
      = match ps.reverse.find? (fun p => p.2 == s) with
        | some p => some p.1
        | none => m s := by
  induction ps generalizing m with
  | nil => rfl
  | cons p rest ih =>
    rw [List.foldl_cons, ih, List.reverse_cons, List.find?_append]
    cases hfind : rest.reverse.find? (fun q => q.2 == s) with
    | some q => simp
    | none =>
      by_cases hp : p.2 = s
      · simp [List.find?, hp]
      · have hb : (p.2 == s) = false := by simp [hp]
        simp only [List.find?, hb]
        exact if_neg (fun h => absurd h.symm hp)

theorem parseHeader_foldl (header : List String) (ps : List (Nat × StructField))
    (m : Nat → Option Nat) (j : Nat) :
    ps.foldl
        (fun m p =>
          match headerToIndex header (ParseTag p.2.tag).FieldHeader with
          | none => m
          | some colIdx => fun t => if t = colIdx then some p.1 else m t) m j
      = match ps.reverse.find?
            (fun p => headerToIndex header (ParseTag p.2.tag).FieldHeader == some j) with
        | some p => some p.1
        | none => m j := by
  induction ps generalizing m with
  | nil => rfl
  | cons p rest ih =>
    rw [List.foldl_cons, ih, List.reverse_cons, List.find?_append]
    cases hfind : rest.reverse.find?
        (fun q => headerToIndex header (ParseTag q.2.tag).FieldHeader == some j) with
    | some q => simp
    | none =>
      cases hk : headerToIndex header (ParseTag p.2.tag).FieldHeader with
      | none => simp [List.find?, hk]
      | some colIdx =>
        by_cases hc : colIdx = j
        · simp [List.find?, hk, hc]
        · have hb : ((some colIdx : Option Nat) == some j) = false := by simp [hc]
          simp only [List.find?, hk, hb]
          exact if_neg (fun h : j = colIdx => absurd h.symm hc)

theorem headerToIndex_eq_find (header : List String) (s : String) :
    headerToIndex header s
      = (header.enum.reverse.find? (fun p => p.2 == s)).map Prod.fst := by
  rw [headerToIndex, headerToIndex_foldl]
  cases header.enum.reverse.find? (fun p => p.2 == s) <;> rfl

theorem parseHeader_eq_find (header : List String) (fields : List StructField)
    (j : Nat) :
    parseHeader header fields j
      = (fields.enum.reverse.find?
          (fun p => headerToIndex header (ParseTag p.2.tag).FieldHeader == some j)).map
          Prod.fst := by
  simp only [parseHeader]
  rw [parseHeader_foldl]
  cases fields.enum.reverse.find?
      (fun p => headerToIndex header (ParseTag p.2.tag).FieldHeader == some j) <;> rfl

/-- C7: duplicate resolution in header binding is last-write-wins in both
scan directions. `headerToIndex` sends a text to the position of its
**last** occurrence in the header (the first hit of a `find?` over the
reversed enumeration), and `parseHeader` sends a header position to the
index of the **last** field in declaration order whose bound column name
resolves to that position. The two closed conjuncts show each direction on
a concrete duplicate. -/
theorem binding_last_write_wins :
    (∀ (header : List String) (s : String),
      headerToIndex header s
        = (header.enum.reverse.find? (fun p => p.2 == s)).map Prod.fst) ∧
    (∀ (header : List String) (fields : List StructField) (j : Nat),
      parseHeader header fields j
        = (fields.enum.reverse.find?
            (fun p => headerToIndex header (ParseTag p.2.tag).FieldHeader == some j)).map
            Prod.fst) ∧
    headerToIndex ["a", "a"] "a" = some 1 ∧
    parseHeader ["a"] [⟨"F1", "a", Kind.string⟩, ⟨"F2", "a", Kind.string⟩] 0
      = some 1 := by
  refine ⟨headerToIndex_eq_find, parseHeader_eq_find, by decide, by decide⟩

/-- C8: binding the header `["foo", "bar", "baz"]` against the fields
`Bar→"bar"`, `Baz→"baz"`, `Foo→"foo"` (declared in that order) produces
exactly the map `{0 ↦ 2, 1 ↦ 0, 2 ↦ 1}`: header column positions map to
field declaration positions, and no other position is mapped. -/
theorem parseHeader_round_trip_example :
    ∀ j : Nat,
      parseHeader ["foo", "bar", "baz"]
          [⟨"Bar", "bar", Kind.string⟩, ⟨"Baz", "baz", Kind.string⟩,
            ⟨"Foo", "foo", Kind.string⟩] j
        = if j = 0 then some 2 else if j = 1 then some 0 else
          if j = 2 then some 1 else none := by
  intro j
  rcases j with _ | _ | _ | j
  · decide
  · decide
  · decide
  · rw [parseHeader_eq_find]
    have e : ([⟨"Bar", "bar", Kind.string⟩, ⟨"Baz", "baz", Kind.string⟩,
          ⟨"Foo", "foo", Kind.string⟩] : List StructField).enum.reverse
        = [(2, ⟨"Foo", "foo", Kind.string⟩), (1, ⟨"Baz", "baz", Kind.string⟩),
            (0, ⟨"Bar", "bar", Kind.string⟩)] := by decide
    have h1 : headerToIndex ["foo", "bar", "baz"] (ParseTag "foo").FieldHeader
        = some 0 := by decide
    have h2 : headerToIndex ["foo", "bar", "baz"] (ParseTag "baz").FieldHeader
        = some 2 := by decide
    have h3 : headerToIndex ["foo", "bar", "baz"] (ParseTag "bar").FieldHeader
        = some 1 := by decide
    have b1 : (some 0 == some (j + 3)) = false := by
      simp only [beq_eq_false_iff_ne, ne_eq, Option.some.injEq]; omega
    have b2 : (some 2 == some (j + 3)) = false := by
      simp only [beq_eq_false_iff_ne, ne_eq, Option.some.injEq]; omega
    have b3 : (some 1 == some (j + 3)) = false := by
      simp only [beq_eq_false_iff_ne, ne_eq, Option.some.injEq]; omega
    rw [e]
    simp only [List.find?, h1, h2, h3, b1, b2, b3, Option.map_none']
    rw [if_neg (by omega), if_neg (by omega), if_neg (by omega)]

/-- C1 counterexample: the claim says an unbound field (parsed column name
empty) contributes no entry to the map regardless of the header's
contents, including a header containing an empty-string text. But for the
header `[""]` and a single field with raw tag `""` — hence parsed column
name `""` — the code looks the empty string up in `headerToIndex`, finds
it at position 0, and records the entry `0 ↦ 0`: the unbound field **is**
targeted. -/
theorem parseHeader_unbound_field_bound_to_empty_header :
    (ParseTag "").FieldHeader = "" ∧
    parseHeader [""] [⟨"A", "", Kind.string⟩] 0 = some 0 := by
  refine ⟨by decide, by decide⟩

/-- C1 amended: a field whose parsed column name — empty or not — has no
match among the header texts contributes no entry to the map: it is never
targeted by row assignment. (Unbound fields, whose parsed column name is
the empty string, are therefore only guaranteed untargeted when no header
position holds the empty-string text; a header containing `""` binds them
to that position like any other match, as the counterexample shows.) -/
theorem parseHeader_unmatched_field_never_targeted
    (header : List String) (fields : List StructField) (i : Nat)
    (f : StructField) (hget : fields[i]? = some f)
    (hmiss : headerToIndex header (ParseTag f.tag).FieldHeader = none) :
    ∀ j, parseHeader header fields j ≠ some i := by
  intro j h
  rw [parseHeader_eq_find] at h
  obtain ⟨p, hp, hp1⟩ := Option.map_eq_some'.mp h
  have hpred := List.find?_some hp
  have hmem : p ∈ fields.enum := List.mem_reverse.mp (List.mem_of_find?_eq_some hp)
  have hgetp : fields[p.1]? = some p.2 := List.mem_enum_iff_getElem?.mp hmem
  rw [hp1] at hgetp
  have hfp : f = p.2 := Option.some.inj (hget.symm.trans hgetp)
  rw [← hfp, hmiss] at hpred
  simp at hpred

/-- Witness for C1's amended theorem: with header `["x"]`, the unbound
field `A` has no match (no header text is `""`), so position 0 is not
mapped to it. -/
theorem parseHeader_unmatched_field_never_targeted_witness :
    parseHeader ["x"] [⟨"A", "", Kind.string⟩] 0 ≠ some 0 :=
  parseHeader_unmatched_field_never_targeted ["x"] [⟨"A", "", Kind.string⟩] 0
    ⟨"A", "", Kind.string⟩ (by decide) (by decide) 0

/-! ### Validation -/

theorem validateFieldsLoop_eq_find (fields : List StructField) :
    validateFieldsLoop fields
      = match fields.find?
            (fun f => !((ParseTag f.tag).FieldHeader == "")
              && !(f.kind == Kind.string)) with
        | some f => .error (.fieldNotAssignable f.name)
        | none => .ok () := by
  induction fields with
  | nil => rfl
  | cons f fs ih =>
    by_cases h : (ParseTag f.tag).FieldHeader ≠ "" ∧ f.kind ≠ Kind.string
    · have hb : (!((ParseTag f.tag).FieldHeader == "")
          && !(f.kind == Kind.string)) = true := by simp [h.1, h.2]
      simp only [validateFieldsLoop, if_pos h, List.find?, hb]
    · have hb : (!((ParseTag f.tag).FieldHeader == "")
          && !(f.kind == Kind.string)) = false := by
        rcases not_and_or.mp h with h1 | h1
        · simp [not_not.mp h1]
        · simp [not_not.mp h1]
      simp only [validateFieldsLoop, if_neg h, List.find?, hb, ih]

/-- C4: validation short-circuits in order. A type whose kind is not
pointer fails with `notPointer`; a pointer whose pointee's kind is not
struct fails with `notStructPointer`; a pointer to a struct fails with
`fieldNotAssignable` naming the **first** field (in declaration order)
whose parsed column name is non-empty but whose kind is not string, and
returns ok when there is no such field — equivalently, validation succeeds
iff every field with a non-empty parsed column name has string kind, so a
field with an empty parsed column name never causes a failure, whatever
its kind. -/
theorem validateFields_short_circuit_order :
    (∀ T : GoType, kindOf T ≠ Kind.pointer →
      validateFields T = .error .notPointer) ∧
    (∀ elem : GoType, kindOf elem ≠ Kind.struct →
      validateFields (.pointer elem) = .error .notStructPointer) ∧
    (∀ fields : List StructField,
      validateFields (.pointer (.structT fields))
        = match fields.find?
              (fun f => !((ParseTag f.tag).FieldHeader == "")
                && !(f.kind == Kind.string)) with
          | some f => .error (.fieldNotAssignable f.name)
          | none => .ok ()) ∧
    (∀ fields : List StructField,
      validateFields (.pointer (.structT fields)) = .ok () ↔
        ∀ f ∈ fields, (ParseTag f.tag).FieldHeader ≠ "" →
          f.kind = Kind.string) := by
  refine ⟨?_, ?_, fun fields => validateFieldsLoop_eq_find fields, ?_⟩
  · intro T hT
    cases T with
    | pointer elem =>
      exact absurd (rfl : kindOf (GoType.pointer elem) = Kind.pointer) hT
    | structT fields => rfl
    | string => rfl
    | int => rfl
    | bool => rfl
    | float => rfl
  · intro elem he
    cases elem with
    | structT fields =>
      exact absurd (rfl : kindOf (GoType.structT fields) = Kind.struct) he
    | pointer e => rfl
    | string => rfl
    | int => rfl
    | bool => rfl
    | float => rfl
  · intro fields
    rw [show validateFields (.pointer (.structT fields))
        = validateFieldsLoop fields from rfl, validateFieldsLoop_eq_find]
    constructor
    · intro hok f hf hne
      by_contra hk
      have hb : (!((ParseTag f.tag).FieldHeader == "")
          && !(f.kind == Kind.string)) = true := by simp [hne, hk]
      cases hfind : fields.find?
          (fun f => !((ParseTag f.tag).FieldHeader == "")
            && !(f.kind == Kind.string)) with
      | some g => rw [hfind] at hok; exact absurd hok (by simp)
      | none =>
        have hn := List.find?_eq_none.mp hfind f hf
        rw [hb] at hn
        exact hn rfl
    · intro hall
      cases hfind : fields.find?
          (fun f => !((ParseTag f.tag).FieldHeader == "")
            && !(f.kind == Kind.string)) with
      | none => rfl
      | some g =>
        exfalso
        have hg := List.find?_some hfind
        have hmem := List.mem_of_find?_eq_some hfind
        simp only [Bool.and_eq_true, Bool.not_eq_true', beq_eq_false_iff_ne] at hg
        exact hg.2 (hall g hmem hg.1)

/-- Witness for C4: the four branches at concrete types — a bare int, a
pointer to int, a pointer to a struct with a bound int field (failing and
naming that field), and a pointer to a struct whose only field is an
unbound int (validating fine). -/
theorem validateFields_short_circuit_order_witness :
    validateFields .int = .error .notPointer ∧
    validateFields (.pointer .int) = .error .notStructPointer ∧
    validateFields (.pointer (.structT [⟨"Field", "field", Kind.int⟩]))
      = .error (.fieldNotAssignable "Field") ∧
    validateFields (.pointer (.structT [⟨"N", "", Kind.int⟩])) = .ok () :=
  ⟨validateFields_short_circuit_order.1 .int (by decide),
    validateFields_short_circuit_order.2.1 .int (by decide),
    (validateFields_short_circuit_order.2.2.1 [⟨"Field", "field", Kind.int⟩]).trans
      (by rfl),
    (validateFields_short_circuit_order.2.2.2 [⟨"N", "", Kind.int⟩]).mpr
      (by decide)⟩

/-! ### Row assignment -/

theorem assignFields_foldl_none (fieldIndex : Nat → Option Nat)
    (fields : List StructField) (ps : List (Nat × String)) :
    ps.foldl
        (fun acc p =>
          match acc with
          | none => none
          | some vs =>
            match fieldIndex p.1 with
            | none => some vs
            | some sfIndex =>
              match fields[sfIndex]? with
              | none => none
              | some f =>
                if f.kind = Kind.string then some (vs.set sfIndex p.2)
                else none)
        (none : Option (List String))
      = none := by
  induction ps with
  | nil => rfl
  | cons p rest ih => exact ih

theorem assignFields_foldl_spec (fieldIndex : Nat → Option Nat)
    (fields : List StructField) (ps : List (Nat × String))
    (vals vs' : List String) (hlen : vals.length = fields.length)
    (h : ps.foldl
        (fun acc p =>
          match acc with
          | none => none
          | some vs =>
            match fieldIndex p.1 with
            | none => some vs
            | some sfIndex =>
              match fields[sfIndex]? with
              | none => none
              | some f =>
                if f.kind = Kind.string then some (vs.set sfIndex p.2)
                else none)
        (some vals) = some vs') :
    ∀ k, vs'[k]?
      = match ps.reverse.find? (fun p => fieldIndex p.1 == some k) with
        | some p => some p.2
        | none => vals[k]? := by
  induction ps generalizing vals with
  | nil =>
    intro k
    obtain rfl : vals = vs' := Option.some.inj h
    rfl
  | cons p rest ih =>
    rw [List.foldl_cons] at h
    intro k
    rw [List.reverse_cons, List.find?_append]
    cases hf : fieldIndex p.1 with
    | none =>
      simp only [hf] at h
      rw [ih vals hlen h k]
      cases hfind : rest.reverse.find? (fun q => fieldIndex q.1 == some k) with
      | some q => rfl
      | none =>
        have hb : (fieldIndex p.1 == some k) = false := by rw [hf]; rfl
        simp [List.find?, hb]
    | some sfIndex =>
      cases hg : fields[sfIndex]? with
      | none =>
        exfalso
        simp only [hf, hg] at h
        rw [assignFields_foldl_none] at h
        exact Option.noConfusion h
      | some f =>
        by_cases hk : f.kind = Kind.string
        · simp only [hf, hg, if_pos hk] at h
          have hlen' : (vals.set sfIndex p.2).length = fields.length := by
            simpa using hlen
          rw [ih _ hlen' h k]
          cases hfind : rest.reverse.find? (fun q => fieldIndex q.1 == some k) with
          | some q => rfl
          | none =>
            by_cases hks : sfIndex = k
            · subst hks
              have hb : (fieldIndex p.1 == some sfIndex) = true := by
                rw [hf]; simp
              have hlt : sfIndex < vals.length := by
                rw [hlen]
                by_contra hge
                rw [List.getElem?_eq_none (by omega)] at hg
                exact Option.noConfusion hg
              simp [List.find?, hb, hlt]
            · have hb : (fieldIndex p.1 == some k) = false := by
                rw [hf]; simp [hks]
              simp [List.find?, hb, List.getElem?_set_ne, hks]
        · exfalso
          simp only [hf, hg, if_neg hk] at h
          rw [assignFields_foldl_none] at h
          exact Option.noConfusion h

/-- C9: the frame property of row assignment. When `assignFields`
completes (result `some vs'`), the record value at each field position `k`
is: the **verbatim** text of the last row position that the map sends to
`k` (no trimming, no conversion), when such a position exists; and exactly
the value the field held before the call otherwise. In particular row
positions absent from the map — including extra trailing columns beyond
the last mapped one — cause no write, and fields never targeted by a
mapped position are untouched. (`hlen` is the structural fact that a
record instance holds one value per declared field.) -/
theorem assignFields_frame (fieldIndex : Nat → Option Nat)
    (fields : List StructField) (record vals vs' : List String)
    (hlen : vals.length = fields.length)
    (h : assignFields fieldIndex fields record vals = some vs') :
    ∀ k, vs'[k]?
      = match record.enum.reverse.find? (fun p => fieldIndex p.1 == some k) with
        | some p => some p.2
        | none => vals[k]? :=
  assignFields_foldl_spec fieldIndex fields record.enum vals vs' hlen h

/-- Witness for C9 at the test scenario: map `{0 ↦ 2, 1 ↦ 0, 2 ↦ 1}`, row
`["1", "2", "hello", "world"]` (one extra trailing column), fresh record
`["", "", ""]`; assignment yields `["2", "hello", "1"]` and position 2
(field `Foo`) holds `"1"`. -/
theorem assignFields_frame_witness :
    (["2", "hello", "1"] : List String)[2]?
      = match (["1", "2", "hello", "world"] : List String).enum.reverse.find?
            (fun p => exampleMap p.1 == some 2) with
        | some p => some p.2
        | none => (["", "", ""] : List String)[2]? :=
  assignFields_frame exampleMap exampleFields ["1", "2", "hello", "world"]
    ["", "", ""] ["2", "hello", "1"] (by decide) (by decide) 2

/-- C2: the claim — that for every record type accepted by
`validateFields`, `assignFields` only ever writes string-kinded fields, so
the `SetString` runtime fault is unreachable whatever the header and rows
contain — is refuted by the code. The type `*struct { A int }` (field
untagged, so its parsed column name is empty) passes validation; but a
header row containing the empty string binds column 0 to the untagged int
field `A`, and the first data row then drives `SetString` into the fault
branch (`.fault`, a reflection panic in Go). The intent documented on
`validateFields` — that a validated `T` can store record field values —
is contradicted, so the code, not the claim, is wrong. -/
theorem validated_reader_reaches_setString_fault :
    validateFields (.pointer (.structT intFieldOnly)) = .ok () ∧
    parseHeader [""] intFieldOnly 0 = some 0 ∧
    (Reader.Read ⟨⟨[[""], ["x"]], .eof⟩, none, false, intFieldOnly⟩ [""]).1
      = .fault := by
  refine ⟨rfl, by decide, by decide⟩

/-- C3: with an empty source (zero rows), the first `Read` propagates the
source's terminal value `e` unchanged (end-of-data or any other error) and
the state keeps `parsedHeader = false` and a nil map — header binding did
not happen. With a header-only source (exactly one row), the first `Read`
binds the header (`parsedHeader` becomes true, the map becomes the parsed
one) and the mandatory data pull then propagates the source's terminal
value `e` unchanged. -/
theorem read_empty_and_header_only_propagate_error :
    (∀ (fields : List StructField) (vals : List String) (e : ReadError),
      Reader.Read ⟨⟨[], e⟩, none, false, fields⟩ vals
        = (.err e, ⟨⟨[], e⟩, none, false, fields⟩)) ∧
    (∀ (fields : List StructField) (vals hdr : List String) (e : ReadError),
      Reader.Read ⟨⟨[hdr], e⟩, none, false, fields⟩ vals
        = (.err e, ⟨⟨[], e⟩, parseHeaderMap hdr fields, true, fields⟩)) :=
  ⟨fun _ _ _ => rfl, fun _ _ _ _ => rfl⟩

end Csv
